import Mathlib

/-!
Verification development for the jenkins-job-builder resolution pipeline:
a shallow embedding of `jenkins_jobs/local_yaml.py` (ordered-mapping
construction, anchor persistence, include directives, lazy loading) and
`jenkins_jobs/registry.py` (component dispatch and macro expansion),
together with theorems settling the specified properties.
-/

namespace JJB

/-! ## Python `str.format` model

`local_yaml.py` drives lazy-load detection through `node_str.format()`
(`YamlInclude._open_file`) and lazy resolution through
`self._node.value.format(*args, **kwargs)` (`LazyLoader.format`).  We model
CPython's `str.format` called with keyword arguments only:

* `"\x7b\x7bx\x7d\x7d"` style doubled braces emit one literal brace;
* a lone closing brace raises `ValueError`;
* an unterminated replacement field raises `ValueError`;
* a replacement field with an empty or all-digit name (a positional field)
  raises `IndexError` when no positional arguments are given;
* a named field absent from the keyword arguments raises `KeyError`;
* a named field present in the keyword arguments is replaced by its value
  verbatim (the inserted value is not re-scanned).

Nested replacement fields inside format specs and conversion/spec
processing beyond the field name are not modelled; the paths this
repository formats only use plain named or positional fields. -/

/-- Errors CPython's `str.format` can raise on the inputs we model. -/
inductive FormatError where
  | keyError (key : String)
  | indexError
  | valueError
deriving DecidableEq, Repr

/-- The literal opening brace character. -/
def openB : Char := '\x7b'

/-- The literal closing brace character. -/
def closeB : Char := '\x7d'

/-- The name part of a replacement field: everything up to the first
attribute access, indexing, conversion or format-spec separator. -/
def fieldNamePart (field : List Char) : List Char :=
  field.takeWhile (fun c => !(c == '.' || c == '[' || c == '!' || c == ':'))

/-- One keyword-argument binding set for `str.format`. -/
abbrev FmtArgs := List (String × String)

/-- Finish one replacement field whose body (reversed) is `acc`: classify
it as positional (`IndexError` with no positional arguments), known
keyword (substitute verbatim), or missing keyword (`KeyError`, or the
empty string when `tol` is set). `k` continues the scan on the remainder. -/
def finishField (vars : FmtArgs) (tol : Bool) (acc : List Char)
    (k : Except FormatError (List Char)) : Except FormatError (List Char) :=
  let name := fieldNamePart acc.reverse
  if name.isEmpty || name.all Char.isDigit then .error .indexError
  else
    match vars.lookup (String.mk name) with
    | some v => (fun r => v.data ++ r) <$> k
    | none => if tol then k else .error (.keyError (String.mk name))

/-- Core scanner for `str.format(**vars)` over the character list of the
format string.  `mode = none` scans literal text; `mode = some acc` is
inside a replacement field whose body so far (reversed) is `acc`.  When
`tol` is true a missing keyword substitutes the empty string instead of
raising (used only by the spec-modelled `deep_format` when empty
variables are allowed). -/
def formatScan (vars : FmtArgs) (tol : Bool) :
    List Char → Option (List Char) → Except FormatError (List Char)
  | [], none => .ok []
  | [], some _ => .error .valueError
  | c :: cs, some acc =>
    if c == closeB then finishField vars tol acc (formatScan vars tol cs none)
    else formatScan vars tol cs (some (c :: acc))
  | c :: cs, none =>
    if c == closeB then
      match cs with
      | c2 :: cs2 =>
        if c2 == closeB then (closeB :: ·) <$> formatScan vars tol cs2 none
        else .error .valueError
      | [] => .error .valueError
    else if c == openB then
      match cs with
      | c2 :: cs2 =>
        if c2 == openB then (openB :: ·) <$> formatScan vars tol cs2 none
        else formatScan vars tol (c2 :: cs2) (some [])
      | [] => .error .valueError
    else (c :: ·) <$> formatScan vars tol cs none

/-- `s.format(**vars)`, strict CPython semantics. -/
def pythonFormat (vars : FmtArgs) (s : String) : Except FormatError String :=
  (formatScan vars false s.data none).map String.mk

/-- `s.format()` with no arguments at all, as used by
`YamlInclude._open_file` for lazy-load detection. -/
def pythonFormatZero (s : String) : Except FormatError String :=
  pythonFormat [] s

/-! ## Anchor persistence (`LocalAnchorLoader`)

`LocalAnchorLoader` keeps the composer's `anchors` dict in a class
attribute shared by every loader instance, overrides `compose_document`
to skip the per-document anchor reset, and clears the table only in
`reset_anchors`, which the module-level `load` calls at the start of each
top-level load.  We model composition of a node tree against an explicit
anchor table; aliases to names absent from the table raise the composer's
parse error, exactly as PyYAML's `Composer.compose_node` does.  PyYAML
registers a collection node's anchor before composing its children (to
allow self-referential aliases) and rejects a duplicate anchor before
descending; we register after composing the children and check for the
duplicate at registration time, which agrees with PyYAML on every
non-self-referential document. -/

/-- A composed (anchor-free) YAML node value. -/
inductive YValue where
  | str (s : String)
  | seq (items : List YValue)
  | map (entries : List (YValue × YValue))
deriving Repr

/-- A raw parsed node: scalars, sequences and mappings may carry an
anchor; `aliasNode` is a `*name` alias reference. -/
inductive YNode where
  | scalar (anchor : Option String) (value : String)
  | sequence (anchor : Option String) (items : List YNode)
  | mapping (anchor : Option String) (pairs : List (YNode × YNode))
  | aliasNode (name : String)
deriving Repr

/-- The session-scoped anchor table (`LocalAnchorLoader.anchors`). -/
abbrev AnchorTable := List (String × YValue)

/-- Composer failures: an alias to an undefined anchor, or an anchor
defined twice within one session. -/
inductive ComposeError where
  | undefinedAlias (name : String)
  | duplicateAnchor (name : String)
deriving DecidableEq, Repr

/-- Record a node's anchor (when present) in the session table. -/
def registerAnchor (t : AnchorTable) (anchor : Option String) (v : YValue) :
    Except ComposeError AnchorTable :=
  match anchor with
  | none => .ok t
  | some a =>
    match t.lookup a with
    | some _ => .error (.duplicateAnchor a)
    | none => .ok ((a, v) :: t)

mutual

/-- Compose one node against the session anchor table, returning the
composed value and the updated table (`Composer.compose_node`). -/
def composeNode (t : AnchorTable) : YNode → Except ComposeError (YValue × AnchorTable)
  | .aliasNode name =>
    match t.lookup name with
    | some v => .ok (v, t)
    | none => .error (.undefinedAlias name)
  | .scalar anchor s => do
    let t1 ← registerAnchor t anchor (.str s)
    .ok (.str s, t1)
  | .sequence anchor items => do
    let (vs, t1) ← composeSeq t items
    let t2 ← registerAnchor t1 anchor (.seq vs)
    .ok (.seq vs, t2)
  | .mapping anchor pairs => do
    let (ps, t1) ← composePairs t pairs
    let t2 ← registerAnchor t1 anchor (.map ps)
    .ok (.map ps, t2)

/-- Compose a sequence's items left to right, threading the table. -/
def composeSeq (t : AnchorTable) : List YNode → Except ComposeError (List YValue × AnchorTable)
  | [] => .ok ([], t)
  | n :: rest => do
    let (v, t1) ← composeNode t n
    let (vs, t2) ← composeSeq t1 rest
    .ok (v :: vs, t2)

/-- Compose a mapping's key/value pairs left to right, threading the table. -/
def composePairs (t : AnchorTable) :
    List (YNode × YNode) → Except ComposeError (List (YValue × YValue) × AnchorTable)
  | [] => .ok ([], t)
  | (k, v) :: rest => do
    let (kv, t1) ← composeNode t k
    let (vv, t2) ← composeNode t1 v
    let (ps, t3) ← composePairs t2 rest
    .ok ((kv, vv) :: ps, t3)

end

/-- Parse a run of documents in one session: the anchor table carries
over from each document to the next (`compose_document` skips the reset
that stock PyYAML performs between documents). -/
def parseDocumentsFrom (t : AnchorTable) :
    List YNode → Except ComposeError (List YValue × AnchorTable)
  | [] => .ok ([], t)
  | d :: rest => do
    let (v, t1) ← composeNode t d
    let (vs, t2) ← parseDocumentsFrom t1 rest
    .ok (v :: vs, t2)

/-- The module-level `load`: `reset_anchors` empties the session table,
then the documents are parsed in one fresh session. -/
def load (docs : List YNode) : Except ComposeError (List YValue × AnchorTable) :=
  parseDocumentsFrom [] docs

/-- A nested include parse (`YamlInclude._from_file` calls `yaml.load`
directly, not the module-level `load`, so the shared class-level anchor
table is NOT reset): it is composition against the current table. -/
def nestedIncludeParse (t : AnchorTable) (doc : YNode) :
    Except ComposeError (YValue × AnchorTable) :=
  composeNode t doc

/-! ## Ordered mapping construction (`OrderedConstructor`) and dumping
(`OrderedRepresenter` / `LocalDumper`)

`construct_yaml_map` builds an `OrderedDict` by assigning each
key/value pair of the mapping node in document order; `LocalDumper`
registers `represent_yaml_mapping`, which hands the `OrderedDict` to
PyYAML's `BaseRepresenter.represent_mapping` under the plain map tag —
and that base method SORTS the item list of any value with `.items`
before emitting it.  We model mappings with scalar string keys (any
hashable key behaves the same; the unhashable-key `ConstructorError`
cannot arise for them). -/

/-- `OrderedDict.__setitem__`: an existing key keeps its position and
receives the new value; a new key is appended at the end. -/
def odInsert (m : List (String × YValue)) (k : String) (v : YValue) :
    List (String × YValue) :=
  match m with
  | [] => [(k, v)]
  | (k', v') :: rest =>
    if k' = k then (k', v) :: rest else (k', v') :: odInsert rest k v

/-- `OrderedConstructor.construct_yaml_map`: fold the node's pairs into
an `OrderedDict` in document order. -/
def construct_yaml_map (pairs : List (String × YValue)) : List (String × YValue) :=
  pairs.foldl (fun m kv => odInsert m kv.1 kv.2) []

/-- The key iteration order of a constructed mapping. -/
def keysOf (m : List (String × YValue)) : List String :=
  m.map Prod.fst

/-- Python string comparison, as `sorted` applies it to string keys:
code-point lexicographic order over the characters. -/
def charsLt : List Char → List Char → Bool
  | [], [] => false
  | [], _ :: _ => true
  | _ :: _, [] => false
  | a :: as, b :: bs =>
    if Nat.blt a.toNat b.toNat then true
    else if Nat.blt b.toNat a.toNat then false
    else charsLt as bs

/-- Insert one item into an already key-sorted item list, keeping
ascending key order. -/
def insertByKey (p : String × YValue) : List (String × YValue) → List (String × YValue)
  | [] => [p]
  | q :: rest =>
    if charsLt p.1.data q.1.data then p :: q :: rest else q :: insertByKey p rest

/-- `sorted(mapping)` over the item list: ascending by key. -/
def sortByKey : List (String × YValue) → List (String × YValue)
  | [] => []
  | p :: rest => insertByKey p (sortByKey rest)

/-- `OrderedRepresenter.represent_yaml_mapping` delegates to PyYAML's
`BaseRepresenter.represent_mapping`, which, for any value with
`.items`, SORTS the item list before emitting it (unconditionally under
`try: mapping = sorted(mapping) except TypeError: pass` in PyYAML 3.x;
by the default `sort_keys=True` in 5.x+, and `dump` passes no
override).  Python orders the `(key, value)` tuples; with the distinct
string keys a constructed mapping always has, that comparison is
decided by the keys alone, code-point lexicographically.  The
`TypeError` escape for incomparable keys — which string keys never
raise — is not modelled. -/
def represent_yaml_mapping (m : List (String × YValue)) : List (String × YValue) :=
  sortByKey m

/-! ## Include directives (`YamlInclude` and subclasses)

The filesystem visible at parse/resolution time is a partial map from
path to file text.  `os.path.expanduser` and `os.path.normpath` are kept
as named identity wrappers: home-directory expansion and dot-segment
collapsing are environment-side path spellings that the claims never
exercise, and both preserve the search order being specified. -/

/-- The filesystem: path → file text, `none` when no such file. -/
def FileSys : Type := String → Option String

/-- `os.path.isfile` over the modelled filesystem. -/
def isFile (fs : FileSys) (p : String) : Bool :=
  (fs p).isSome

/-- `os.path.join dirname filename` for a relative `filename` (an
absolute second argument, which would discard the directory, does not
occur for include paths). -/
def joinPath (d f : String) : String :=
  d ++ "/" ++ f

/-- `os.path.expanduser`; identity on the `~`-free paths in scope. -/
def expanduser (p : String) : String := p

/-- `os.path.normpath`; kept abstractly as the identity spelling of the
path (normalization does not affect search order or file existence in
the modelled filesystem). -/
def normpath (p : String) : String := p

/-- `os.path.curdir`. -/
def curdir : String := "."

/-- `YamlInclude._find_file`: try each search-path directory in order,
returning the first candidate that is a file; when none exists, return
the raw filename unchanged. -/
def find_file (fs : FileSys) (filename : String) : List String → String
  | [] => filename
  | d :: rest =>
    let candidate := expanduser (joinPath d filename)
    if isFile fs candidate then candidate else find_file fs filename rest

/-- The search path built by `LocalLoader.__init__`: explicitly
configured directories in caller order, then the directory of the
stream being parsed (when the stream has a name), then the current
working directory. -/
def mkSearchPath (extraDirs : List String) (streamDir : Option String) : List String :=
  extraDirs.map normpath ++
    (match streamDir with | some d => [normpath d] | none => []) ++
    [normpath curdir]

/-- The include directive variants (`YamlInclude`,
`YamlIncludeRaw`, `YamlIncludeRawEscape`). -/
inductive DirectiveKind where
  | inline
  | raw
  | rawEscape
deriving DecidableEq, Repr

/-- `LazyLoader`: the directive class it will re-run, the owning
loader's search path and escape callback, and the node's (mutable)
path string. -/
structure LazyRef where
  cls : DirectiveKind
  searchPath : List String
  escapeFn : String → String
  nodeValue : String

/-- An include error surfacing out of parse or lazy resolution. -/
inductive IncludeError where
  /-- an `IndexError`/`ValueError` from the zero-argument format probe
  (only `KeyError` is caught by `_open_file`), or a format failure
  during lazy resolution. -/
  | formatErr (e : FormatError)
  /-- `io.open` failed; `_open_file` logs the search path and re-raises. -/
  | readError (searchPath : List String)
  /-- a string operation applied to a non-string value. -/
  | typeError
  /-- the nested `yaml.load` of included content failed. -/
  | nestedParse (msg : String)

/-- What an include directive's `from_yaml` returns: literal text, a
parsed document, a deferred `LazyLoader`, or a `LazyLoaderCollection`
wrapping the per-path results of a multi-path include. -/
inductive IncludeValue where
  | text (s : String)
  | node (v : YValue)
  | lazy (ll : LazyRef)
  | lazyColl (items : List IncludeValue)

/-- Is this member a `LazyLoader` instance? -/
def IncludeValue.isLazy : IncludeValue → Bool
  | .lazy _ => true
  | _ => false

/-- Character-level brace doubling:
`re.sub(r'(\x7b|\x7d)', r'\1\1', ...)` replaces each brace by two. -/
def escChars : List Char → List Char
  | [] => []
  | c :: cs =>
    if c == openB || c == closeB then c :: c :: escChars cs else c :: escChars cs

/-- `LocalLoader._escape`, the default escape callback: every literal
brace in the data is doubled. -/
def _escape (data : String) : String :=
  String.mk (escChars data.data)

/-- The nested parse performed by `YamlInclude._from_file`'s
`yaml.load(contents, functools.partial(cls.yaml_loader, search_path=...))`:
abstract in this embedding, supplied the inherited search path and the
included text. -/
abbrev NestedParseFn := List String → String → Except IncludeError YValue

/-- `YamlInclude._open_file`: probe the path with a zero-argument
format — a `KeyError` switches to lazy loading (`_lazy_load`), any
other exception escapes — then search for the file and read it;
a read failure logs the attempted search path and re-raises. -/
def open_file (fs : FileSys) (sp : List String) (esc : String → String)
    (kind : DirectiveKind) (nodeStr : String) : Except IncludeError (LazyRef ⊕ String) :=
  match pythonFormatZero nodeStr with
  | .error (.keyError _) => .ok (.inl ⟨kind, sp, esc, nodeStr⟩)
  | .error e => .error (.formatErr e)
  | .ok _ =>
    match fs (find_file fs nodeStr sp) with
    | some content => .ok (.inr content)
    | none => .error (.readError sp)

namespace YamlInclude

/-- `YamlInclude._from_file`: open (or defer) the file, then parse the
text as a nested document with the same loader configuration. -/
def _from_file (pf : NestedParseFn) (fs : FileSys) (sp : List String)
    (esc : String → String) (nodeStr : String) : Except IncludeError IncludeValue :=
  match open_file fs sp esc .inline nodeStr with
  | .error e => .error e
  | .ok (.inl ll) => .ok (.lazy ll)
  | .ok (.inr contents) => (IncludeValue.node ·) <$> pf sp contents

end YamlInclude

namespace YamlIncludeRaw

/-- `YamlIncludeRaw._from_file`: the raw text (or deferred loader). -/
def _from_file (fs : FileSys) (sp : List String) (esc : String → String)
    (nodeStr : String) : Except IncludeError IncludeValue :=
  match open_file fs sp esc .raw nodeStr with
  | .error e => .error e
  | .ok (.inl ll) => .ok (.lazy ll)
  | .ok (.inr contents) => .ok (.text contents)

end YamlIncludeRaw

/-- A scalar include node or a sequence of path scalars. -/
inductive IncNode where
  | scalarN (s : String)
  | seqN (paths : List String)

/-- A member of a multi-path include as `u'\n'.join` sees it: Python
`str` instances joined; anything else raises `TypeError`. -/
def IncludeValue.asJoinable : IncludeValue → Option String
  | .text s => some s
  | .node (.str s) => some s
  | _ => none

/-- `u'\n'.join(contents)` over the per-path results. -/
def joinContents (items : List IncludeValue) : Except IncludeError IncludeValue :=
  match items.mapM IncludeValue.asJoinable with
  | some ss => .ok (.text (String.intercalate "\n" ss))
  | none => .error .typeError

/-- `YamlInclude.from_yaml` (shared by `YamlIncludeRaw` via its
overridden `_from_file`): a scalar resolves directly; a sequence
resolves each path, wrapping the results in a `LazyLoaderCollection`
when any member is deferred, and newline-joining them otherwise. -/
def fromYamlGeneric (fromFile : String → Except IncludeError IncludeValue) :
    IncNode → Except IncludeError IncludeValue
  | .scalarN s => fromFile s
  | .seqN paths => do
    let contents ← paths.mapM fromFile
    if contents.any IncludeValue.isLazy then .ok (.lazyColl contents)
    else joinContents contents

namespace YamlInclude

/-- `YamlInclude.from_yaml`. -/
def from_yaml (pf : NestedParseFn) (fs : FileSys) (sp : List String)
    (esc : String → String) (node : IncNode) : Except IncludeError IncludeValue :=
  fromYamlGeneric (_from_file pf fs sp esc) node

end YamlInclude

namespace YamlIncludeRaw

/-- `YamlIncludeRaw.from_yaml`. -/
def from_yaml (fs : FileSys) (sp : List String) (esc : String → String)
    (node : IncNode) : Except IncludeError IncludeValue :=
  fromYamlGeneric (_from_file fs sp esc) node

end YamlIncludeRaw

namespace YamlIncludeRawEscape

/-- `YamlIncludeRawEscape.from_yaml`: delegate to `YamlIncludeRaw`
(so a deferred path is owned by the raw directive), pass a `LazyLoader`
through unescaped with a warning, and otherwise apply the loader's
escape callback to the data.  Applying the escape callback (a string
function) to a `LazyLoaderCollection` or parsed document raises
`TypeError`. -/
def from_yaml (fs : FileSys) (sp : List String) (esc : String → String)
    (node : IncNode) : Except IncludeError IncludeValue :=
  match YamlIncludeRaw.from_yaml fs sp esc node with
  | .error e => .error e
  | .ok (.lazy ll) => .ok (.lazy ll)
  | .ok (.text s) => .ok (.text (esc s))
  | .ok (.lazyColl _) => .error .typeError
  | .ok (.node _) => .error .typeError

end YamlIncludeRawEscape

/-- Dispatch on the stored directive class, as `self._cls.from_yaml`
does during lazy resolution. -/
def from_yaml_by_kind (pf : NestedParseFn) (fs : FileSys) (kind : DirectiveKind)
    (sp : List String) (esc : String → String) (node : IncNode) :
    Except IncludeError IncludeValue :=
  match kind with
  | .inline => YamlInclude.from_yaml pf fs sp esc node
  | .raw => YamlIncludeRaw.from_yaml fs sp esc node
  | .rawEscape => YamlIncludeRawEscape.from_yaml fs sp esc node

namespace LazyRef

/-- `LazyLoader.format`: substitute the arguments into the stored node
value IN PLACE (`self._node.value = self._node.value.format(...)`),
then re-run the owning directive's `from_yaml` on the updated node.
The first component is the `LazyLoader`'s state after the call. -/
def format (pf : NestedParseFn) (fs : FileSys) (ll : LazyRef) (args : FmtArgs) :
    LazyRef × Except IncludeError IncludeValue :=
  match pythonFormat args ll.nodeValue with
  | .error e => (ll, .error (.formatErr e))
  | .ok newVal =>
    ({ ll with nodeValue := newVal },
     from_yaml_by_kind pf fs ll.cls ll.searchPath ll.escapeFn (.scalarN newVal))

end LazyRef

/-! ## Component registry and dispatch (`ModuleRegistry`)

`ModuleRegistry.dispatch` normalizes the invocation, interpolates the
argument mapping against the template data, then tries the macro table
(`self.parser_data[component_type]`) before the per-category entry-point
cache.  Generators mutate `xml_parent`; we model a generator by the list
of nodes it appends, over an arbitrary output node type. -/

/-- A structured argument value inside a component invocation. -/
inductive Data where
  | str (s : String)
  | list (xs : List Data)
  | map (entries : List (String × Data))
deriving Repr

/-- A component invocation: a bare name, or a dictionary whose first
entry is the (name, argument-mapping) pair. -/
inductive Component where
  | nameOnly (s : String)
  | mapping (entries : List (String × Data))
deriving Repr

/-- Keyword arguments visible to string interpolation: string-valued
template entries substitute their text.  Substitution of non-string
template values (stringification) is outside the spec's wording and is
not modelled; such keys behave as absent. -/
def dataVarsToStr (vars : List (String × Data)) : FmtArgs :=
  vars.filterMap (fun kv => match kv.2 with | Data.str s => some (kv.1, s) | _ => none)

mutual

/-- Modelled from the spec: `deep_format` (from `jenkins_jobs/formatter.py`,
which is not under `src/`) deep-interpolates every string value inside
the argument data against the template arguments; non-string values pass
through unchanged; a missing required placeholder fails with a
substitution error unless the session tolerates empty substitutions, in
which case it substitutes the empty string. -/
def deep_format (svars : FmtArgs) (allowEmpty : Bool) : Data → Except FormatError Data
  | .str s => (fun cs => Data.str (String.mk cs)) <$> formatScan svars allowEmpty s.data none
  | .list xs => Data.list <$> deep_format_list svars allowEmpty xs
  | .map es => Data.map <$> deep_format_entries svars allowEmpty es

/-- Modelled from the spec: `deep_format` over the items of a list value. -/
def deep_format_list (svars : FmtArgs) (allowEmpty : Bool) :
    List Data → Except FormatError (List Data)
  | [] => .ok []
  | d :: rest => do
    let d' ← deep_format svars allowEmpty d
    let r ← deep_format_list svars allowEmpty rest
    .ok (d' :: r)

/-- Modelled from the spec: `deep_format` over the entries of a mapping
value (keys pass through; values are interpolated). -/
def deep_format_entries (svars : FmtArgs) (allowEmpty : Bool) :
    List (String × Data) → Except FormatError (List (String × Data))
  | [] => .ok []
  | (k, d) :: rest => do
    let d' ← deep_format svars allowEmpty d
    let r ← deep_format_entries svars allowEmpty rest
    .ok ((k, d') :: r)

end

/-- A generator callable from the entry-point cache: given its data it
appends output nodes (or raises a structured error message). -/
abbrev GenFun (Out : Type) : Type := Data → Except String (List Out)

/-- The dispatch-relevant state of a `ModuleRegistry` for one category:
the known component types, the macro table from the parsed documents
(`parser_data`), the per-category generator cache (`entry_points_cache`
after it is built), and the `allow_empty_variables` setting.  A macro
table entry carries the macro body: its ordered component invocation
list under the category's `component_list_type` key. -/
structure Registry (Out : Type) where
  hasComponentType : String → Bool
  parserData : String → String → Option (List Component)
  eps : String → Option (GenFun Out)
  allowEmptyVariables : Bool

/-- Dispatch failures.  `recursionLimit` is an artifact of the
embedding's explicit recursion budget: the source recurses unboundedly
on self-referential macros (no cycle guard), and every theorem below
supplies a sufficient budget. -/
inductive DispatchError where
  | unknownComponentType (ct : String)
  | emptyInvocation
  | substitutionErr (e : FormatError)
  | generatorErr (msg : String)
  | unknown (name : String) (ct : String)
  | recursionLimit
deriving Repr

/-- The exception text `dispatch` raises, per error. -/
def DispatchError.message : DispatchError → String
  | .unknownComponentType ct =>
      "Unknown component type: '" ++ ct ++ "'."
  | .emptyInvocation => "StopIteration"
  | .substitutionErr _ => "substitution error"
  | .generatorErr m => m
  | .unknown name ct =>
      "Unknown entry point or macro '" ++ name ++ "' for component type: '" ++ ct ++ "'."
  | .recursionLimit => "maximum recursion depth exceeded"

/-- The macro recursion passes the invocation's (already interpolated)
argument mapping on as the nested call's template data
(`self.dispatch(component_type, xml_parent, b, component_data)`). -/
def asTemplateArgs : Data → List (String × Data)
  | .map es => es
  | _ => []

/-- Run a macro body: each invocation in order, concatenating the
appended output nodes; the first failing invocation aborts. -/
def runBody (step : Component → Except DispatchError (List Out)) :
    List Component → Except DispatchError (List Out)
  | [] => .ok []
  | b :: rest => do
    let o1 ← step b
    let o2 ← runBody step rest
    .ok (o1 ++ o2)

/-- Look the normalized name up: the macro table first — a hit
re-dispatches each body invocation (via `recurse`) with this invocation's
argument data as the nested template data (the shadowing warning has no
semantic effect) — otherwise the generator cache, and otherwise the
unknown-component error naming both the name and the category. -/
def dispatchLookup (reg : Registry Out)
    (recurse : Component → List (String × Data) → Except DispatchError (List Out))
    (ct n : String) (d : Data) : Except DispatchError (List Out) :=
  match reg.parserData ct n with
  | some body => runBody (fun b => recurse b (asTemplateArgs d)) body
  | none =>
    match reg.eps n with
    | some g =>
      match g d with
      | .ok outs => .ok outs
      | .error m => .error (.generatorErr m)
    | none => .error (.unknown n ct)

/-- One level of `ModuleRegistry.dispatch`: check the component type,
normalize the invocation to a name and argument data (a dictionary
invocation uses its FIRST entry only; a bare name gets empty data),
interpolate the data against non-empty template data, then resolve the
name with `dispatchLookup`. -/
def dispatchStep (reg : Registry Out)
    (recurse : Component → List (String × Data) → Except DispatchError (List Out))
    (ct : String) (component : Component) (templateData : List (String × Data)) :
    Except DispatchError (List Out) :=
  if reg.hasComponentType ct = false then .error (.unknownComponentType ct)
  else
    match component with
    | .mapping [] => .error .emptyInvocation
    | .mapping ((n, d) :: _) =>
      match (if templateData.isEmpty then .ok d
             else deep_format (dataVarsToStr templateData) reg.allowEmptyVariables d) with
      | .error e => .error (.substitutionErr e)
      | .ok d' => dispatchLookup reg recurse ct n d'
    | .nameOnly n => dispatchLookup reg recurse ct n (.map [])

/-- `ModuleRegistry.dispatch` with an explicit recursion budget (the
source recurses unboundedly; see `DispatchError.recursionLimit`). -/
def dispatch (reg : Registry Out) : Nat → String → Component →
    List (String × Data) → Except DispatchError (List Out)
  | 0, _, _, _ => .error .recursionLimit
  | Nat.succ fuel, ct, component, templateData =>
    dispatchStep reg (dispatch reg fuel ct) ct component templateData

/-! ## Concrete fixtures

Closed instances used by the witness and counterexample theorems to
evaluate the definitions on concrete inputs. -/

/-- A small filesystem fixture. -/
def fsW : FileSys := fun p =>
  if p == "1.0/file.txt" then some "hello"
  else if p == "A/f" then some "fileA"
  else if p == "B/f" then some "fileB"
  else if p == "scripts/one.sh" then some "a\x7bb"
  else none

/-- A trivial nested-parse fixture: included text parses to a string
scalar. -/
def pfW : NestedParseFn := fun _ s => .ok (.str s)

/-- A generator fixture: emits one node recording its `value` field. -/
def GW : GenFun String := fun d =>
  match d with
  | .map [("value", .str v)] => .ok ["v=" ++ v]
  | _ => .error "missing attribute"

/-- A registry fixture with one macro `M(x)` whose body invokes the
generator `G` with `value: "\x7bx\x7d"`. -/
def regW : Registry String where
  hasComponentType := fun ct => ct == "builder"
  parserData := fun ct n =>
    if ct == "builder" && n == "M" then
      some [Component.mapping [("G", Data.map [("value", Data.str "\x7bx\x7d")])]]
    else none
  eps := fun n => if n == "G" then some GW else none
  allowEmptyVariables := false

/-! ## Helper lemmas -/

theorem mk_data (s : String) : String.mk s.data = s := rfl

theorem odInsert_of_not_mem (m : List (String × YValue)) (k : String) (v : YValue)
    (h : k ∉ m.map Prod.fst) : odInsert m k v = m ++ [(k, v)] := by
  induction m with
  | nil => rfl
  | cons a rest ih =>
    obtain ⟨k', v'⟩ := a
    simp only [List.map_cons, List.mem_cons, not_or] at h
    simp only [odInsert]
    rw [if_neg (fun hh => h.1 (hh.symm)), ih h.2]
    simp

theorem foldl_odInsert_eq_append (pairs : List (String × YValue)) :
    ∀ acc : List (String × YValue),
      (∀ k ∈ acc.map Prod.fst, k ∉ pairs.map Prod.fst) →
      ((pairs.map Prod.fst).Nodup) →
      pairs.foldl (fun m kv => odInsert m kv.1 kv.2) acc = acc ++ pairs := by
  induction pairs with
  | nil => intro acc _ _; simp
  | cons p rest ih =>
    intro acc hd hn
    obtain ⟨k, v⟩ := p
    simp only [List.foldl_cons]
    have hknotacc : k ∉ acc.map Prod.fst := by
      intro hk
      exact hd k hk (by simp)
    rw [odInsert_of_not_mem acc k v hknotacc]
    simp only [List.map_cons, List.nodup_cons] at hn
    have hrest := ih (acc ++ [(k, v)]) (by
      intro k' hk'
      simp only [List.map_append, List.mem_append, List.map_cons, List.map_nil,
        List.mem_singleton] at hk'
      rcases hk' with hk' | hk'
      · intro hmem
        exact hd k' hk' (by simp [hmem])
      · simpa [hk'] using hn.1) hn.2
    rw [hrest]
    simp

theorem construct_yaml_map_nodup (pairs : List (String × YValue))
    (hn : (pairs.map Prod.fst).Nodup) : construct_yaml_map pairs = pairs := by
  simpa [construct_yaml_map] using
    foldl_odInsert_eq_append pairs [] (by simp) hn

theorem blt_iff (x y : Nat) : Nat.blt x y = true ↔ x < y :=
  Nat.blt_eq.to_iff

theorem blt_false (x y : Nat) (h : Nat.blt x y = false) : ¬ x < y := by
  intro hlt
  rw [(blt_iff x y).mpr hlt] at h
  cases h

theorem charsLt_irrefl : ∀ l : List Char, charsLt l l = false
  | [] => rfl
  | a :: as => by
    have hb : Nat.blt a.toNat a.toNat = false := by
      cases hb : Nat.blt a.toNat a.toNat
      · rfl
      · exact absurd (blt_iff _ _ |>.mp hb) (lt_irrefl _)
    simp [charsLt, hb, charsLt_irrefl as]

theorem charsLt_trans : ∀ as bs cs : List Char,
    charsLt as bs = true → charsLt bs cs = true → charsLt as cs = true
  | [], [], _, h1, _ => by simp [charsLt] at h1
  | [], _ :: _, [], _, h2 => by simp [charsLt] at h2
  | [], _ :: _, _ :: _, _, _ => by simp [charsLt]
  | _ :: _, [], _, h1, _ => by simp [charsLt] at h1
  | _ :: _, _ :: _, [], _, h2 => by simp [charsLt] at h2
  | a :: as, b :: bs, c :: cs, h1, h2 => by
    simp only [charsLt] at h1 h2 ⊢
    cases hab : Nat.blt a.toNat b.toNat <;> rw [hab] at h1 <;>
      cases hbc : Nat.blt b.toNat c.toNat <;> rw [hbc] at h2
    · -- ¬a<b, ¬b<c: heads tie both times
      cases hba : Nat.blt b.toNat a.toNat <;> rw [hba] at h1
      · cases hcb : Nat.blt c.toNat b.toNat <;> rw [hcb] at h2
        · have hac : a.toNat = c.toNat := by
            have h1' := blt_false _ _ hab
            have h2' := blt_false _ _ hba
            have h3' := blt_false _ _ hbc
            have h4' := blt_false _ _ hcb
            omega
          have hacb : Nat.blt a.toNat c.toNat = false := by
            cases hx : Nat.blt a.toNat c.toNat
            · rfl
            · exact absurd ((blt_iff _ _).mp hx) (by omega)
          have hcab : Nat.blt c.toNat a.toNat = false := by
            cases hx : Nat.blt c.toNat a.toNat
            · rfl
            · exact absurd ((blt_iff _ _).mp hx) (by omega)
          rw [hacb, hcab]
          simp only [if_neg, Bool.false_eq_true, not_false_iff]
          exact charsLt_trans as bs cs (by simpa using h1) (by simpa using h2)
        · cases h2
      · cases h1
    · -- ¬a<b (tie or a>b), b<c
      cases hba : Nat.blt b.toNat a.toNat <;> rw [hba] at h1
      · -- a = b < c
        have : a.toNat < c.toNat := by
          have h1' := blt_false _ _ hab
          have h2' := blt_false _ _ hba
          have h3' := (blt_iff _ _).mp hbc
          omega
        rw [(blt_iff _ _).mpr this]
        simp
      · cases h1
    · -- a<b, ¬b<c
      cases hcb : Nat.blt c.toNat b.toNat <;> rw [hcb] at h2
      · -- a < b = c
        have : a.toNat < c.toNat := by
          have h1' := (blt_iff _ _).mp hab
          have h2' := blt_false _ _ hbc
          have h3' := blt_false _ _ hcb
          omega
        rw [(blt_iff _ _).mpr this]
        simp
      · cases h2
    · -- a<b, b<c
      have : a.toNat < c.toNat :=
        lt_trans ((blt_iff _ _).mp hab) ((blt_iff _ _).mp hbc)
      rw [(blt_iff _ _).mpr this]
      simp

theorem insertByKey_perm (p : String × YValue) :
    ∀ l, (insertByKey p l).Perm (p :: l)
  | [] => List.Perm.refl _
  | q :: rest => by
    rw [insertByKey]
    by_cases h : charsLt p.1.data q.1.data = true
    · rw [if_pos h]
    · rw [if_neg h]
      exact (List.Perm.cons q (insertByKey_perm p rest)).trans (List.Perm.swap p q rest)

theorem sortByKey_perm : ∀ l, (sortByKey l).Perm l
  | [] => List.Perm.refl _
  | p :: rest =>
    (insertByKey_perm p (sortByKey rest)).trans (List.Perm.cons p (sortByKey_perm rest))

theorem insertByKey_pairwise (p : String × YValue) :
    ∀ l, List.Pairwise (fun a b : String × YValue => charsLt b.1.data a.1.data = false) l →
      List.Pairwise (fun a b : String × YValue => charsLt b.1.data a.1.data = false)
        (insertByKey p l)
  | [], _ => by simp [insertByKey]
  | q :: rest, h => by
    rw [List.pairwise_cons] at h
    obtain ⟨hq, hrest⟩ := h
    rw [insertByKey]
    by_cases hpq : charsLt p.1.data q.1.data = true
    · rw [if_pos hpq]
      refine List.Pairwise.cons ?_ (List.Pairwise.cons hq hrest)
      intro r hr
      rcases List.mem_cons.mp hr with rfl | hr
      · cases hqp : charsLt r.1.data p.1.data
        · rfl
        · have := charsLt_trans _ _ _ hqp hpq
          rw [charsLt_irrefl] at this
          cases this
      · cases hrp : charsLt r.1.data p.1.data
        · rfl
        · have := charsLt_trans _ _ _ hrp hpq
          rw [hq r hr] at this
          cases this
    · rw [if_neg hpq]
      refine List.Pairwise.cons ?_ (insertByKey_pairwise p rest hrest)
      intro r hr
      rcases List.mem_cons.mp ((insertByKey_perm p rest).mem_iff.mp hr) with rfl | hr'
      · cases hb : charsLt r.1.data q.1.data
        · rfl
        · exact absurd hb hpq
      · exact hq r hr'

theorem sortByKey_pairwise : ∀ l,
    List.Pairwise (fun a b : String × YValue => charsLt b.1.data a.1.data = false)
      (sortByKey l)
  | [] => List.Pairwise.nil
  | p :: rest => insertByKey_pairwise p (sortByKey rest) (sortByKey_pairwise rest)

theorem sortByKey_of_sorted_strict : ∀ l : List (String × YValue),
    List.Pairwise (fun a b : String × YValue => charsLt a.1.data b.1.data = true) l →
      sortByKey l = l
  | [], _ => rfl
  | p :: rest, h => by
    rw [List.pairwise_cons] at h
    obtain ⟨hp, hrest⟩ := h
    rw [sortByKey, sortByKey_of_sorted_strict rest hrest]
    cases rest with
    | nil => rfl
    | cons q rest2 =>
      rw [insertByKey, if_pos (hp q (by simp))]

theorem find_file_eq (fs : FileSys) (f : String) : ∀ sp : List String,
    find_file fs f sp =
      ((sp.map (fun d => expanduser (joinPath d f))).find? (isFile fs)).getD f
  | [] => rfl
  | d :: rest => by
    simp only [find_file, List.map_cons]
    cases h : isFile fs (expanduser (joinPath d f)) with
    | true => simp [List.find?, h]
    | false => simp [List.find?, h, find_file_eq fs f rest]

theorem count_escChars (c : Char) (hc : (c == openB || c == closeB) = true) :
    ∀ l : List Char, (escChars l).count c = 2 * l.count c := by
  intro l
  induction l with
  | nil => rfl
  | cons a cs ih =>
    by_cases ha : (a == openB || a == closeB) = true
    · simp only [escChars, ha, if_pos]
      by_cases hac : a == c
      · simp [List.count_cons, hac, ih]; omega
      · simp [List.count_cons, hac, ih]
    · have hne : (a == c) = false := by
        apply beq_eq_false_iff_ne.mpr
        intro hac
        subst hac
        exact ha hc
      simp only [escChars, ha, if_neg, Bool.false_eq_true, not_false_iff]
      simp [List.count_cons, hne, ih]

theorem escChars_double_open_infix :
    ∀ l : List Char, openB ∈ l → [openB, openB] <:+: escChars l := by
  intro l h
  induction l with
  | nil => cases h
  | cons a cs ih =>
    rcases List.mem_cons.mp h with rfl | hmem
    · exact ⟨[], escChars cs, by simp [escChars]⟩
    · by_cases ha : (a == openB || a == closeB) = true
      · simpa only [escChars, ha, if_pos] using
          List.infix_cons (List.infix_cons (ih hmem))
      · simpa only [escChars, ha, if_neg, Bool.false_eq_true, not_false_iff] using
          List.infix_cons (ih hmem)

/-! ## Claim theorems -/

/-- C1: anchors defined while parsing one document stay visible to every
later document and nested include parse of the same loading session (the
table is never reset between documents); only a new top-level `load`
resets the table, after which the same alias fails with the composer's
undefined-alias parse error. -/
theorem anchor_persistence_across_session
    (D1 : YNode) (A : String) (w v : YValue) (t : AnchorTable)
    (h1 : composeNode [] D1 = .ok (w, t))
    (hA : t.lookup A = some v) :
    load [D1, .aliasNode A] = .ok ([w, v], t) ∧
    nestedIncludeParse t (.aliasNode A) = .ok (v, t) ∧
    load [.aliasNode A] = .error (.undefinedAlias A) := by
  refine ⟨?_, ?_, ?_⟩
  · simp [load, parseDocumentsFrom, h1, composeNode, hA, Bind.bind, Except.bind]
  · simp [nestedIncludeParse, composeNode, hA]
  · simp [load, parseDocumentsFrom, composeNode, List.lookup, Bind.bind, Except.bind]

/-- C1 witness: a session whose first document anchors `&A hello` and
whose second document is `*A`. -/
theorem anchor_persistence_across_session_witness :
    load [YNode.scalar (some "A") "hello", YNode.aliasNode "A"]
        = .ok ([YValue.str "hello", YValue.str "hello"], [("A", YValue.str "hello")]) ∧
    load [YNode.aliasNode "A"] = .error (.undefinedAlias "A") := by
  have h := anchor_persistence_across_session (YNode.scalar (some "A") "hello") "A"
    (.str "hello") (.str "hello") [("A", YValue.str "hello")] (by rfl) (by rfl)
  exact ⟨h.1, h.2.2⟩

/-- C5 counterexample: the mapping parsed with keys in order `[b, a]`
iterates `[b, a]`, but dumping and reloading yields key order `[a, b]`:
PyYAML's representer sorts mapping items on dump, so the dump-then-reload
half of the claim fails. -/
theorem mapping_key_order_counterexample :
    keysOf (construct_yaml_map [("b", YValue.str "1"), ("a", YValue.str "2")])
      = ["b", "a"] ∧
    keysOf (construct_yaml_map (represent_yaml_mapping
        (construct_yaml_map [("b", YValue.str "1"), ("a", YValue.str "2")])))
      = ["a", "b"] ∧
    (["a", "b"] : List String) ≠ ["b", "a"] :=
  ⟨rfl, rfl, by decide⟩

/-- C5 amended: parsing preserves insertion order — iterating the
constructed mapping yields `[k1..kn]` — but dumping emits the items
SORTED by key (a permutation of the constructed mapping in ascending
code-point key order), so a dump-then-reload cycle yields ascending key
order, which coincides with the original insertion order exactly when
`[k1..kn]` was already ascending. -/
theorem mapping_key_order_parse_and_sorted_dump (pairs : List (String × YValue))
    (hn : (pairs.map Prod.fst).Nodup) :
    keysOf (construct_yaml_map pairs) = pairs.map Prod.fst ∧
    (represent_yaml_mapping (construct_yaml_map pairs)).Perm (construct_yaml_map pairs) ∧
    List.Pairwise (fun a b : String => charsLt b.data a.data = false)
        (keysOf (represent_yaml_mapping (construct_yaml_map pairs))) ∧
    ((pairs.map Prod.fst).Pairwise (fun a b : String => charsLt a.data b.data = true) →
        keysOf (construct_yaml_map (represent_yaml_mapping (construct_yaml_map pairs)))
          = pairs.map Prod.fst) := by
  have hc := construct_yaml_map_nodup pairs hn
  refine ⟨by rw [hc]; rfl, ?_, ?_, ?_⟩
  · simp only [represent_yaml_mapping]
    rw [hc]
    exact sortByKey_perm pairs
  · simp only [represent_yaml_mapping, keysOf]
    rw [hc]
    exact List.pairwise_map.mpr (sortByKey_pairwise pairs)
  · intro hsorted
    have hsp : List.Pairwise
        (fun a b : String × YValue => charsLt a.1.data b.1.data = true) pairs :=
      List.pairwise_map.mp hsorted
    simp only [represent_yaml_mapping]
    rw [hc, sortByKey_of_sorted_strict pairs hsp, hc]
    rfl

/-- C5 amended witness: the already-ascending mapping
`\x7ba: 1, b: 2, c: 3\x7d` keeps key order `[a, b, c]` through parse
and through the (sorting) dump-then-reload cycle. -/
theorem mapping_key_order_parse_and_sorted_dump_witness :
    keysOf (construct_yaml_map
        [("a", YValue.str "1"), ("b", YValue.str "2"), ("c", YValue.str "3")])
      = ["a", "b", "c"] ∧
    keysOf (construct_yaml_map (represent_yaml_mapping (construct_yaml_map
        [("a", YValue.str "1"), ("b", YValue.str "2"), ("c", YValue.str "3")])))
      = ["a", "b", "c"] := by
  have h := mapping_key_order_parse_and_sorted_dump
    [("a", YValue.str "1"), ("b", YValue.str "2"), ("c", YValue.str "3")]
    (by simp)
  exact ⟨h.1, h.2.2.2 (by decide)⟩

/-- C2 counterexample: the path `"\x7b0\x7d/file.txt"` has a missing
(positional) placeholder under zero-argument formatting, yet the loader
does not defer it — the `IndexError` is not caught by `_open_file` and
escapes the parse. -/
theorem lazy_detection_counterexample :
    pythonFormatZero "\x7b0\x7d/file.txt" = .error .indexError ∧
    open_file (fun _ => none) [] id .raw "\x7b0\x7d/file.txt"
      = .error (.formatErr .indexError) :=
  ⟨rfl, rfl⟩

/-- C2 amended: a path is deferred as a Lazy Reference exactly when
zero-argument formatting raises a `KeyError` (a missing NAMED
placeholder); a path formatting cleanly resolves eagerly at parse time;
a formatting `IndexError` or `ValueError` (positional or malformed
placeholder) is not caught and escapes the parse. -/
theorem lazy_detection_keyerror_only (fs : FileSys) (sp : List String)
    (esc : String → String) (kind : DirectiveKind) (p : String) :
    ((∃ k, pythonFormatZero p = .error (.keyError k)) ↔
        open_file fs sp esc kind p = .ok (.inl ⟨kind, sp, esc, p⟩)) ∧
    (∀ q, pythonFormatZero p = .ok q →
        open_file fs sp esc kind p =
          match fs (find_file fs p sp) with
          | some c => .ok (.inr c)
          | none => .error (.readError sp)) ∧
    (pythonFormatZero p = .error .indexError →
        open_file fs sp esc kind p = .error (.formatErr .indexError)) ∧
    (pythonFormatZero p = .error .valueError →
        open_file fs sp esc kind p = .error (.formatErr .valueError)) := by
  cases hp : pythonFormatZero p with
  | ok q0 =>
    refine ⟨⟨?_, ?_⟩, ?_, ?_, ?_⟩
    · rintro ⟨k, hk⟩; cases hk
    · intro hopen
      exfalso
      simp only [open_file, hp] at hopen
      cases hfs : fs (find_file fs p sp) <;> rw [hfs] at hopen <;> simp at hopen
    · intro q _; simp only [open_file, hp]
    · intro hq; cases hq
    · intro hq; cases hq
  | error e =>
    cases e with
    | keyError k =>
      refine ⟨⟨?_, ?_⟩, ?_, ?_, ?_⟩
      · intro _; simp [open_file, hp]
      · intro _; exact ⟨k, rfl⟩
      · intro q hq; cases hq
      · intro hq; cases hq
      · intro hq; cases hq
    | indexError =>
      refine ⟨⟨?_, ?_⟩, ?_, ?_, ?_⟩
      · rintro ⟨k, hk⟩; cases hk
      · intro hopen
        exfalso
        simp only [open_file, hp] at hopen
        simp at hopen
      · intro q hq; cases hq
      · intro _; simp [open_file, hp]
      · intro hq; cases hq
    | valueError =>
      refine ⟨⟨?_, ?_⟩, ?_, ?_, ?_⟩
      · rintro ⟨k, hk⟩; cases hk
      · intro hopen
        exfalso
        simp only [open_file, hp] at hopen
        simp at hopen
      · intro q hq; cases hq
      · intro hq; cases hq
      · intro _; simp [open_file, hp]

/-- C2 amended witness: a named placeholder defers; a plain path reads
eagerly. -/
theorem lazy_detection_keyerror_only_witness :
    open_file fsW [] _escape .raw "\x7bversion\x7d/file.txt"
      = .ok (.inl ⟨.raw, [], _escape, "\x7bversion\x7d/file.txt"⟩) ∧
    open_file fsW [] _escape .raw "1.0/file.txt" = .ok (.inr "hello") := by
  have h := lazy_detection_keyerror_only fsW [] _escape .raw "\x7bversion\x7d/file.txt"
  have h2 := lazy_detection_keyerror_only fsW [] _escape .raw "1.0/file.txt"
  refine ⟨h.1.mp ⟨"version", by rfl⟩, ?_⟩
  have h3 := h2.2.1 "1.0/file.txt" (by rfl)
  rw [h3]
  rfl

/-- C10: a dictionary invocation with several entries dispatches exactly
as the singleton of its first entry: only the first (name, arguments)
pair is consulted and the remaining entries are silently ignored. -/
theorem dispatch_uses_first_entry {Out : Type} (reg : Registry Out) (fuel : Nat)
    (ct n : String) (d : Data) (rest : List (String × Data))
    (templateData : List (String × Data)) :
    dispatch reg fuel ct (.mapping ((n, d) :: rest)) templateData =
      dispatch reg fuel ct (.mapping [(n, d)]) templateData := by
  cases fuel <;> rfl

/-- C4: an eagerly resolved `!include-raw-escape:` returns the file
content passed exactly once through the escape function — the default
escape doubles each literal brace, so content containing a `\x7b`
contains `\x7b\x7b` afterwards — while a lazily deferred path skips
escaping entirely: the deferred reference is owned by the raw directive
and its later resolution returns the raw unescaped text. -/
theorem raw_escape_once_and_lazy_skip (fs : FileSys) (sp : List String)
    (pf : NestedParseFn) :
    (∀ p q c, pythonFormatZero p = .ok q → fs (find_file fs p sp) = some c →
        YamlIncludeRawEscape.from_yaml fs sp _escape (.scalarN p)
          = .ok (.text (_escape c))) ∧
    (∀ s : String, (_escape s).data.count openB = 2 * s.data.count openB ∧
        (_escape s).data.count closeB = 2 * s.data.count closeB) ∧
    (∀ s : String, openB ∈ s.data → [openB, openB] <:+: (_escape s).data) ∧
    (∀ p k, pythonFormatZero p = .error (.keyError k) →
        YamlIncludeRawEscape.from_yaml fs sp _escape (.scalarN p)
          = .ok (.lazy ⟨.raw, sp, _escape, p⟩) ∧
        (∀ args p2 q2 c2, pythonFormat args p = .ok p2 →
            pythonFormatZero p2 = .ok q2 → fs (find_file fs p2 sp) = some c2 →
            (LazyRef.format pf fs ⟨.raw, sp, _escape, p⟩ args).2
              = .ok (.text c2))) := by
  refine ⟨?_, ?_, ?_, ?_⟩
  · intro p q c hq hc
    simp [YamlIncludeRawEscape.from_yaml, YamlIncludeRaw.from_yaml, fromYamlGeneric,
      YamlIncludeRaw._from_file, open_file, hq, hc]
  · intro s
    exact ⟨count_escChars openB (by decide) s.data, count_escChars closeB (by decide) s.data⟩
  · intro s hs
    exact escChars_double_open_infix s.data hs
  · intro p k hk
    constructor
    · simp [YamlIncludeRawEscape.from_yaml, YamlIncludeRaw.from_yaml, fromYamlGeneric,
        YamlIncludeRaw._from_file, open_file, hk]
    · intro args p2 q2 c2 hargs hq2 hc2
      simp [LazyRef.format, hargs, from_yaml_by_kind, YamlIncludeRaw.from_yaml,
        fromYamlGeneric, YamlIncludeRaw._from_file, open_file, hq2, hc2]

/-- C4 witness: an eager raw-escaped include of content `a\x7bb` yields
`a\x7b\x7bb`; a deferred raw-escaped include is returned as a raw-owned
lazy reference whose resolution yields the unescaped file text. -/
theorem raw_escape_once_and_lazy_skip_witness :
    YamlIncludeRawEscape.from_yaml fsW [] _escape (.scalarN "scripts/one.sh")
      = .ok (.text "a\x7b\x7bb") ∧
    YamlIncludeRawEscape.from_yaml fsW [] _escape
        (.scalarN "\x7bversion\x7d/file.txt")
      = .ok (.lazy ⟨.raw, [], _escape, "\x7bversion\x7d/file.txt"⟩) ∧
    (LazyRef.format pfW fsW ⟨.raw, [], _escape, "\x7bversion\x7d/file.txt"⟩
        [("version", "1.0")]).2 = .ok (.text "hello") := by
  have h := raw_escape_once_and_lazy_skip fsW [] pfW
  have h4 := h.2.2.2 "\x7bversion\x7d/file.txt" "version" (by rfl)
  refine ⟨?_, h4.1,
    h4.2 [("version", "1.0")] "1.0/file.txt" "1.0/file.txt" "hello"
      (by rfl) (by rfl) (by rfl)⟩
  have h1 := h.1 "scripts/one.sh" "scripts/one.sh" "a\x7bb" (by rfl) (by rfl)
  rw [h1]
  rfl

/-- C6: the search path is exactly the configured extra directories in
caller order, then the current document's directory when known, then the
working directory; `_find_file` returns the first existing candidate in
that order and otherwise the raw path unchanged, so the failure surfaces
only as a read error when `_open_file` tries to open it. -/
theorem include_search_order (fs : FileSys) (extras : List String)
    (streamDir : Option String) (filename : String) :
    mkSearchPath extras streamDir =
        extras.map normpath ++ (streamDir.map normpath).toList ++ [normpath curdir] ∧
    find_file fs filename (mkSearchPath extras streamDir) =
        (((mkSearchPath extras streamDir).map
            (fun d => expanduser (joinPath d filename))).find? (isFile fs)).getD filename ∧
    (∀ esc kind q, pythonFormatZero filename = .ok q →
        (∀ d ∈ mkSearchPath extras streamDir,
            isFile fs (expanduser (joinPath d filename)) = false) →
        fs filename = none →
        open_file fs (mkSearchPath extras streamDir) esc kind filename
          = .error (.readError (mkSearchPath extras streamDir))) := by
  refine ⟨?_, find_file_eq fs filename _, ?_⟩
  · cases streamDir <;> rfl
  · intro esc kind q hq hmiss hnone
    have hfind : find_file fs filename (mkSearchPath extras streamDir) = filename := by
      rw [find_file_eq]
      have hnonefound : ((mkSearchPath extras streamDir).map
          (fun d => expanduser (joinPath d filename))).find? (isFile fs) = none := by
        apply List.find?_eq_none.mpr
        intro x hx
        rcases List.mem_map.mp hx with ⟨d, hd, rfl⟩
        simp [hmiss d hd]
      rw [hnonefound]
      rfl
    simp only [open_file, hq, hfind, hnone]

/-- C6 witness: with directories `[A, B]` both holding `f`, resolution
returns the path under `A`; a path found nowhere comes back unchanged
and only opening it fails. -/
theorem include_search_order_witness :
    find_file fsW "f" (mkSearchPath ["A", "B"] none) = "A/f" ∧
    find_file fsW "nope" (mkSearchPath [] none) = "nope" ∧
    open_file fsW (mkSearchPath [] none) _escape .raw "nope"
      = .error (.readError (mkSearchPath [] none)) := by
  have h := include_search_order fsW ["A", "B"] none "f"
  have h2 := include_search_order fsW [] none "nope"
  refine ⟨?_, ?_, ?_⟩
  · rw [h.2.1]; rfl
  · rw [h2.2.1]; rfl
  · refine h2.2.2 _escape .raw "nope" (by rfl) ?_ (by rfl)
    intro d hd
    simp only [mkSearchPath, normpath, curdir, List.map_nil, List.nil_append,
      List.mem_singleton] at hd
    subst hd
    rfl

/-- C7: resolving a Lazy Reference with arguments returns exactly what
eagerly including the substituted path through the reference's stored
directive returns (search, read, optional escape; parsed document for
inline, text for raw); in particular a raw-owned deferred path whose
substitution names an existing file resolves to that file's text. -/
theorem lazy_resolve_eq_eager_include (pf : NestedParseFn) (fs : FileSys)
    (ll : LazyRef) (args : FmtArgs) (p2 : String)
    (h : pythonFormat args ll.nodeValue = .ok p2) :
    (LazyRef.format pf fs ll args).2 =
        from_yaml_by_kind pf fs ll.cls ll.searchPath ll.escapeFn (.scalarN p2) ∧
    (∀ q c, ll.cls = .raw → pythonFormatZero p2 = .ok q →
        fs (find_file fs p2 ll.searchPath) = some c →
        (LazyRef.format pf fs ll args).2 = .ok (.text c)) := by
  constructor
  · simp [LazyRef.format, h]
  · intro q c hcls hq hfs
    simp [LazyRef.format, h, hcls, from_yaml_by_kind, YamlIncludeRaw.from_yaml,
      fromYamlGeneric, YamlIncludeRaw._from_file, open_file, hq, hfs]

/-- C7 witness: the deferred `"\x7bversion\x7d/file.txt"` resolved with
`version = "1.0"` yields the same content as eagerly including
`"1.0/file.txt"`. -/
theorem lazy_resolve_eq_eager_include_witness :
    (LazyRef.format pfW fsW ⟨.raw, [], _escape, "\x7bversion\x7d/file.txt"⟩
        [("version", "1.0")]).2 = .ok (.text "hello") ∧
    from_yaml_by_kind pfW fsW .raw [] _escape (.scalarN "1.0/file.txt")
      = .ok (.text "hello") := by
  have h := lazy_resolve_eq_eager_include pfW fsW
    ⟨.raw, [], _escape, "\x7bversion\x7d/file.txt"⟩ [("version", "1.0")]
    "1.0/file.txt" (by rfl)
  exact ⟨h.2 "1.0/file.txt" "hello" rfl (by rfl) (by rfl), by rfl⟩

/-- C8 counterexample: resolving a Lazy Reference DOES modify the
reference's stored path expression — after resolving
`"\x7bversion\x7d/file.txt"` with `version = "1.0"` the stored node
value has become `"1.0/file.txt"`. -/
theorem lazy_format_mutates_counterexample :
    ((LazyRef.format pfW fsW ⟨.raw, [], _escape, "\x7bversion\x7d/file.txt"⟩
        [("version", "1.0")]).1).nodeValue = "1.0/file.txt" ∧
    "1.0/file.txt" ≠ "\x7bversion\x7d/file.txt" :=
  ⟨rfl, by decide⟩

/-- C8 amended: resolving a Lazy Reference updates, in place, the
reference's stored path expression to the substituted path when
substitution succeeds (it is unchanged when substitution raises); the
directive class, search path and escape callback are never modified. -/
theorem lazy_format_mutation_frame (pf : NestedParseFn) (fs : FileSys)
    (ll : LazyRef) (args : FmtArgs) :
    (∀ p2, pythonFormat args ll.nodeValue = .ok p2 →
        (LazyRef.format pf fs ll args).1 = { ll with nodeValue := p2 }) ∧
    (∀ e, pythonFormat args ll.nodeValue = .error e →
        (LazyRef.format pf fs ll args).1 = ll) ∧
    ((LazyRef.format pf fs ll args).1.cls = ll.cls ∧
     (LazyRef.format pf fs ll args).1.searchPath = ll.searchPath ∧
     (LazyRef.format pf fs ll args).1.escapeFn = ll.escapeFn) := by
  refine ⟨?_, ?_, ?_⟩
  · intro p2 h; simp [LazyRef.format, h]
  · intro e h; simp [LazyRef.format, h]
  · cases h : pythonFormat args ll.nodeValue <;> simp [LazyRef.format, h]

/-- C8 amended witness: the resolved reference's state. -/
theorem lazy_format_mutation_frame_witness :
    (LazyRef.format pfW fsW ⟨.raw, [], _escape, "\x7bversion\x7d/file.txt"⟩
        [("version", "1.0")]).1
      = ⟨.raw, [], _escape, "1.0/file.txt"⟩ :=
  (lazy_format_mutation_frame pfW fsW
    ⟨.raw, [], _escape, "\x7bversion\x7d/file.txt"⟩ [("version", "1.0")]).1
    "1.0/file.txt" (by rfl)

/-- C9: a dispatch whose name is in neither the category's macro table
nor its generator cache fails with the unknown-component error, whose
message names both the component name and the category. -/
theorem unknown_component_error {Out : Type} (reg : Registry Out) (fuel : Nat)
    (ct name : String) (d : Data)
    (hct : reg.hasComponentType ct = true)
    (hm : reg.parserData ct name = none) (he : reg.eps name = none) :
    dispatch reg (fuel + 1) ct (.mapping [(name, d)]) [] = .error (.unknown name ct) ∧
    dispatch reg (fuel + 1) ct (.nameOnly name) [] = .error (.unknown name ct) ∧
    (DispatchError.unknown name ct).message =
      "Unknown entry point or macro '" ++ name ++ "' for component type: '"
        ++ ct ++ "'." ∧
    name.data <:+: ((DispatchError.unknown name ct).message).data ∧
    ct.data <:+: ((DispatchError.unknown name ct).message).data := by
  refine ⟨?_, ?_, rfl, ?_, ?_⟩
  · show dispatchStep reg (dispatch reg fuel ct) ct _ _ = _
    simp [dispatchStep, dispatchLookup, hct, hm, he]
  · show dispatchStep reg (dispatch reg fuel ct) ct _ _ = _
    simp [dispatchStep, dispatchLookup, hct, hm, he]
  · refine ⟨"Unknown entry point or macro '".data,
      ("' for component type: '" ++ ct ++ "'.").data, ?_⟩
    simp [DispatchError.message, String.data_append, List.append_assoc]
  · refine ⟨("Unknown entry point or macro '" ++ name ++ "' for component type: '").data,
      "'.".data, ?_⟩
    simp [DispatchError.message, String.data_append, List.append_assoc]

/-- C3: dispatching a macro `M(x)` whose body invokes generator `G`
with `value: "\x7bx\x7d"`, supplying `x = v`, produces the same output
as dispatching `G` directly with `value: v`; the macro's interpolated
argument mapping is handed on as the nested dispatch call's template
data and is the only channel to the nested definition. -/
theorem macro_expansion_equivalence {Out : Type} (G : GenFun Out)
    (reg : Registry Out) (ct M gName : String) (v : String) (fuel : Nat)
    (hct : reg.hasComponentType ct = true)
    (hM : reg.parserData ct M =
        some [Component.mapping [(gName, Data.map [("value", Data.str "\x7bx\x7d")])]])
    (hg : reg.parserData ct gName = none)
    (hG : reg.eps gName = some G) :
    dispatch reg (fuel + 2) ct (.mapping [(M, .map [("x", .str v)])]) [] =
      dispatch reg (fuel + 2) ct (.mapping [(gName, .map [("value", .str v)])]) [] := by
  have hscan : formatScan [("x", v)] reg.allowEmptyVariables
      (String.data "\x7bx\x7d") none = .ok (v.data ++ []) := rfl
  rw [List.append_nil] at hscan
  have hdeep : deep_format (dataVarsToStr [("x", Data.str v)]) reg.allowEmptyVariables
      (Data.map [("value", Data.str "\x7bx\x7d")])
        = .ok (Data.map [("value", Data.str v)]) := by
    show deep_format [("x", v)] reg.allowEmptyVariables
        (Data.map [("value", Data.str "\x7bx\x7d")]) = _
    simp [deep_format, deep_format_entries, hscan, mk_data, Bind.bind, Except.bind]
  have hinner : dispatch reg (fuel + 1) ct
      (Component.mapping [(gName, Data.map [("value", Data.str "\x7bx\x7d")])])
      [("x", Data.str v)] =
        (match G (Data.map [("value", Data.str v)]) with
         | .ok outs => .ok outs
         | .error m => .error (.generatorErr m)) := by
    show dispatchStep reg (dispatch reg fuel ct) ct _ _ = _
    simp [dispatchStep, dispatchLookup, hct, hg, hG, hdeep]
  show dispatchStep reg (dispatch reg (fuel + 1) ct) ct _ _ =
    dispatchStep reg (dispatch reg (fuel + 1) ct) ct _ _
  simp only [dispatchStep, dispatchLookup, hct, hM, hg, hG, runBody, asTemplateArgs,
    List.isEmpty, Bool.false_eq_true, if_false, ite_false, hinner]
  cases hGa : G (Data.map [("value", Data.str v)]) <;>
    simp [hGa, runBody, hinner, Bind.bind, Except.bind]

/-- C3 witness: `M(x = "42")` and `G(value = "42")` produce the same
single output node. -/
theorem macro_expansion_equivalence_witness :
    dispatch regW 2 "builder" (.mapping [("M", .map [("x", .str "42")])]) []
      = .ok ["v=42"] ∧
    dispatch regW 2 "builder" (.mapping [("G", .map [("value", .str "42")])]) []
      = .ok ["v=42"] := by
  have h := macro_expansion_equivalence GW regW "builder" "M" "G" "42" 0
    (by rfl) (by rfl) (by rfl) (by rfl)
  exact ⟨h.trans (by rfl), by rfl⟩

/-- C9 witness: dispatching the unregistered name `Z` in category
`builder`. -/
theorem unknown_component_error_witness :
    dispatch regW 1 "builder" (.mapping [("Z", .map [])]) []
      = .error (.unknown "Z" "builder") ∧
    (DispatchError.unknown "Z" "builder").message =
      "Unknown entry point or macro 'Z' for component type: 'builder'." := by
  have h := unknown_component_error regW 0 "builder" "Z" (.map [])
    (by rfl) (by rfl) (by rfl)
  exact ⟨h.1, h.2.2.1⟩

end JJB
